import Mathlib

/-!
Verification development for the n1-parser snapshot loader (src/store.py).

The loader reads daily CSV snapshots of real-estate listings and persists them
into three relations: offers (canonical listings), prices (per-listing price
observations) and avg_prices (per-address daily average price per unit area,
with change against the most recent earlier average).

Modelling conventions:
* the three relations are modelled as lists of row records, in insertion order;
* Python floats are modelled as exact rationals; Python round(x, 2) is modelled
  as decimal rounding half-to-even at two decimal places on the exact value;
* Python int() applied to a number truncates toward zero, modelled by truncQ;
* peewee IntegerField coerces any numeric value with int() when writing a row
  (Field.db_value applies the field adapter), so the avg_prices row that is
  persisted holds truncated integers even though the loader computes a
  two-decimal rounded value;
* datetime.date values read back from DATE columns are modelled by Date, a
  year/month/day record compared lexicographically; the datetime.datetime
  values strptime produces are a distinct type DateTime (time part zero),
  because Python never equates a datetime with a plain date, which a
  faithful model of the date-membership test must preserve; the SQL
  comparison of a DATE column against a midnight timestamp is strict
  calendar-date comparison;
* database failures are injected through an explicit failure oracle on the
  sequence of bulk-insert statements; db.atomic() is modelled by a combinator
  that discards all partial effects of a failed statement sequence;
* KeyboardInterrupt is an external cancellation signal, not an error produced
  by the pipeline, and is outside this pure model.
-/

namespace N1Store

/-- A calendar date as produced by datetime.strptime with format string
Y-m-d; datetime objects compare lexicographically by (year, month, day). -/
structure Date where
  year : Nat
  month : Nat
  day : Nat
deriving DecidableEq

/-- Chronological comparison of dates (non-strict), the comparison used by
SQL DATE ordering and datetime ordering alike. -/
def Date.leb (a b : Date) : Bool :=
  decide (a.year < b.year) ||
    (decide (a.year = b.year) &&
      (decide (a.month < b.month) ||
        (decide (a.month = b.month) && decide (a.day ≤ b.day))))

/-- Chronological comparison of dates (strict). -/
def Date.ltb (a b : Date) : Bool :=
  decide (a.year < b.year) ||
    (decide (a.year = b.year) &&
      (decide (a.month < b.month) ||
        (decide (a.month = b.month) && decide (a.day < b.day))))

/-- A datetime.datetime as produced by datetime.strptime with format Y-m-d:
the time part is always zero, only the calendar date varies. Kept distinct
from Date because Python never equates a datetime.datetime with a plain
datetime.date, even on the same calendar day. -/
structure DateTime where
  date : Date
deriving DecidableEq

/-- The ordering sorted() applies to strptime keys: zero-time datetimes
compare chronologically by their calendar dates. -/
def DateTime.leb (a b : DateTime) : Bool := Date.leb a.date b.date

/-- Python equality between a datetime.datetime (the parsed offer date) and
a datetime.date (a DateField value read from the store): constantly false,
since datetime.__eq__ never equates the two types. -/
def pyDateTimeEqDate (_t : DateTime) (_d : Date) : Bool := false

/-- A parsed offer, the result of parse_raw_offer in src/store.py: the dict of
typed values carried through the loader for one CSV row; the date field is
the datetime.datetime strptime returned. -/
structure Offer where
  offer_id : Int
  date : DateTime
  url : String
  address : String
  area : Int
  floor : Int
  release_date : Int
  price : Int
  house_material : String
  lat : Rat
  lon : Rat
deriving DecidableEq

/-- A row of the offers table (OfferModel): the column release_year receives
the parsed release_date value positionally in insert_butch. -/
structure OfferRow where
  offer_id : Int
  url : String
  address : String
  area : Int
  floor : Int
  release_year : Int
  house_material : String
  lat : Rat
  lon : Rat
deriving DecidableEq

/-- A row of the prices table (PriceModel): the column named address is a
foreign key holding an offers.offer_id value. -/
structure PriceRow where
  address : Int
  date : Date
  price : Int
deriving DecidableEq

/-- A row of the avg_prices table (AvgPriceModel). avg_price and
avg_price_change are declared IntegerField, so the persisted values are
integers (peewee applies int() to the supplied value). -/
structure AvgPriceRow where
  address : String
  date : Date
  avg_price : Int
  avg_price_change : Option Int
deriving DecidableEq

/-- The persistent store: the three relations, each as a list of rows in
insertion order. -/
structure Store where
  offers : List OfferRow
  prices : List PriceRow
  avg_prices : List AvgPriceRow
deriving DecidableEq

/-- An in-memory average-price row as computed by get_avg_prices_rows, before
any column coercion: avg_price is the two-decimal rounded rational and
avg_price_change an optional rational; the date is still the parsed
datetime at this point. -/
structure AvgRow where
  address : String
  date : DateTime
  avg_price : Rat
  avg_price_change : Option Rat
deriving DecidableEq

/-- Python exception outcomes of the loader: StoreException (typed),
ZeroDivisionError, and any other unanticipated exception. -/
inductive PyError where
  | storeExc (msg : String)
  | zeroDivision
  | other (msg : String)
deriving DecidableEq

/-- Round a rational to the nearest integer, ties to even: the rounding mode
of Python round on exact values. -/
def roundHalfEven (q : Rat) : Int :=
  let f : Int := Rat.floor q
  let r : Rat := q - (f : Rat)
  if r < 1 / 2 then f
  else if 1 / 2 < r then f + 1
  else if f % 2 = 0 then f else f + 1

/-- Python round(x, 2) on an exact value: round half-to-even at two decimal
places. -/
def round2 (q : Rat) : Rat := (roundHalfEven (q * 100) : Rat) / 100

/-- Python int() applied to a number: truncation toward zero, the floor for
nonnegative values and the negated floor of the negation otherwise. -/
def truncQ (q : Rat) : Int := if q < 0 then -(Rat.floor (-q)) else Rat.floor q

/-- The coercion peewee applies when inserting an in-memory average-price row
into the avg_prices table: IntegerField.db_value applies int() to avg_price
and, when not null, to avg_price_change, and the DateField column persists
the calendar date of the supplied datetime. -/
def toStoredAvgRow (r : AvgRow) : AvgPriceRow :=
  ⟨r.address, r.date.date, truncQ r.avg_price, r.avg_price_change.map truncQ⟩

/-- The offers-table row built from a parsed offer by get_offers_rows: the
field list is offer_id, url, address, area, floor, release_date,
house_material, lat, lon, inserted positionally into OfferModel.fields()
(whose sixth column is release_year). -/
def toOfferRow (o : Offer) : OfferRow :=
  ⟨o.offer_id, o.url, o.address, o.area, o.floor, o.release_date,
    o.house_material, o.lat, o.lon⟩

/-- get_exists_dates(PriceModel): the dates present in the prices table (the
query deduplicates and orders, which is immaterial for the set membership use
in get_price_rows). -/
def get_exists_dates (prices : List PriceRow) : List Date :=
  prices.map (fun r => r.date)

/-- get_offers_rows: query the ids already in the offers table among the
candidate ids, then keep one offers row per candidate whose id is not already
stored. -/
def get_offers_rows (s : Store) (offers : List Offer) : List OfferRow :=
  let offer_id := offers.map (fun o => o.offer_id)
  let exists_id := (s.offers.map (fun r => r.offer_id)).filter
    (fun i => offer_id.contains i)
  (offers.filter (fun o => !(exists_id.contains o.offer_id))).map toOfferRow

/-- get_price_rows: the code tests the offer date for membership in the set
of dates already stored and skips the candidate on a hit; but the offer date
is the datetime.datetime strptime produced, while get_exists_dates yields
datetime.date values from the DateField column, so every comparison behind
the membership test is the constantly-false cross-type Python equality and
the skip branch never fires. One (offer_id, date, price) row is emitted per
candidate, the DateField persisting the calendar date of the datetime. -/
def get_price_rows (s : Store) (offers : List Offer) : List PriceRow :=
  let exists_dates := get_exists_dates s.prices
  (offers.filter (fun o =>
    !(exists_dates.any (fun d => pyDateTimeEqDate o.date d)))).map
    (fun o => ⟨o.offer_id, o.date.date, o.price⟩)

/-- AvgPriceModel.last_avg_price: the avg_prices rows with the given address
and a date strictly before end_date, ordered by date, last one taken; None
on an empty result (the IndexError branch). end_date is the parsed datetime;
the SQL comparison casts the stored DATE to a midnight timestamp, so
date < end_date is exactly strict calendar-date comparison against
end_date's day. -/
def last_avg_price (rows : List AvgPriceRow) (address : String)
    (end_date : DateTime) : Option AvgPriceRow :=
  ((rows.filter (fun r => r.address == address &&
    Date.ltb r.date end_date.date)).mergeSort
    (fun a b => Date.leb a.date b.date)).getLast?

/-- itertools.groupby on a list keyed by address: maximal runs of adjacent
elements sharing one address, each run as (first element, rest of run). -/
def groupAdjacent : List Offer → List (Offer × List Offer)
  | [] => []
  | a :: rest =>
    (a, rest.takeWhile (fun b => b.address == a.address)) ::
      groupAdjacent (rest.dropWhile (fun b => b.address == a.address))
termination_by l => l.length
decreasing_by
  simp only [List.length_cons]
  exact Nat.lt_succ_of_le (List.dropWhile_sublist _).length_le

/-- The price-per-unit-area term of the average: price / area as Python true
division on exact values (only evaluated when area is nonzero). -/
def priceArea (o : Offer) : Rat := (o.price : Rat) / (o.area : Rat)

/-- One iteration of the get_avg_prices_rows loop body over a group: a zero
area in the group raises ZeroDivisionError; otherwise the two-decimal rounded
mean of price/area, and the change against the last stored average strictly
before the group date when one exists. -/
def avg_group_row (avgTable : List AvgPriceRow) (g : Offer × List Offer) :
    Except PyError AvgRow :=
  let items := g.1 :: g.2
  if items.any (fun i => i.area == 0) then Except.error PyError.zeroDivision
  else
    let date := g.1.date
    let avg_price := round2 ((items.map priceArea).sum / (items.length : Rat))
    let avg_price_change :=
      (last_avg_price avgTable g.1.address date).map
        (fun r => avg_price - (r.avg_price : Rat))
    Except.ok ⟨g.1.address, date, avg_price, avg_price_change⟩

/-- Left-to-right effectful map: each element is processed in order and the
first raised exception aborts the rest, like the Python for loop. -/
def mapExcept (f : α → Except PyError β) : List α → Except PyError (List β)
  | [] => Except.ok []
  | x :: xs =>
    match f x with
    | Except.error e => Except.error e
    | Except.ok y =>
      match mapExcept f xs with
      | Except.error e => Except.error e
      | Except.ok ys => Except.ok (y :: ys)

/-- Comparison used by sorted(offers, key=address): Python compares strings
lexicographically by code point, as does the String order here. -/
def addrLe (a b : Offer) : Bool := decide (a.address ≤ b.address)

/-- get_avg_prices_rows: sort the batch by address, group adjacent equal
addresses (itertools.groupby over sorted input), and emit one average-price
row per group. -/
def get_avg_prices_rows (s : Store) (offers : List Offer) :
    Except PyError (List AvgRow) :=
  mapExcept (avg_group_row s.avg_prices) (groupAdjacent (offers.mergeSort addrLe))

/-- peewee chunked(rows, 100): split a list into consecutive chunks of at most
100 elements. -/
def chunked100 (xs : List α) : List (List α) :=
  if xs.isEmpty then [] else xs.take 100 :: chunked100 (xs.drop 100)
termination_by xs.length
decreasing_by
  rename_i h
  simp only [List.isEmpty_iff] at h
  have hpos : 0 < xs.length := List.length_pos.mpr h
  simp only [List.length_drop]
  omega

/-- One bulk-insert statement executed inside the save_file transaction: an
insert_many call for one chunk of one of the three tables. -/
inductive Op where
  | insOffers (chunk : List OfferRow)
  | insPrices (chunk : List PriceRow)
  | insAvg (chunk : List AvgPriceRow)
deriving DecidableEq

/-- The effect of one bulk-insert statement on the store. -/
def applyOp (s : Store) : Op → Store
  | Op.insOffers c => { s with offers := s.offers ++ c }
  | Op.insPrices c => { s with prices := s.prices ++ c }
  | Op.insAvg c => { s with avg_prices := s.avg_prices ++ c }

/-- The statement sequence issued inside the save_file transaction:
OfferModel.insert_butch, then PriceModel.insert_butch, then
AvgPriceModel.insert_butch, each chunking its rows into chunks of 100. -/
def insertOps (offerRows : List OfferRow) (priceRows : List PriceRow)
    (avgRows : List AvgPriceRow) : List Op :=
  (chunked100 offerRows).map Op.insOffers ++
    (chunked100 priceRows).map Op.insPrices ++
      (chunked100 avgRows).map Op.insAvg

/-- Sequential execution of insert statements without transactional
protection: statements preceding a failing one keep their effects. The oracle
fail gives, per statement index, whether the database raises on it. -/
def runOps (fail : Nat → Bool) : Nat → List Op → Store → Store × Option PyError
  | _, [], s => (s, none)
  | i, op :: ops, s =>
    if fail i then (s, some (PyError.storeExc "db insert failed"))
    else runOps fail (i + 1) ops (applyOp s op)

/-- db.atomic(): run the statement sequence in a transaction; on success the
final state is committed, on any failure every partial effect is rolled back
and the state from before the transaction is kept. -/
def runAtomic (fail : Nat → Bool) (ops : List Op) (s : Store) :
    Store × Option PyError :=
  match runOps fail 0 ops s with
  | (s1, none) => (s1, none)
  | (_, some e) => (s, some e)

/-- save_file on an already-parsed batch: compute the three row sets (offers,
prices, average prices in that order, so a ZeroDivisionError in the average
computation happens before any write), then persist them inside one
db.atomic() transaction; a PeeweeException becomes a StoreException. -/
def save_file (fail : Nat → Bool) (s : Store) (offers : List Offer) :
    Except PyError Store :=
  let offer_rows := get_offers_rows s offers
  let price_rows := get_price_rows s offers
  match get_avg_prices_rows s offers with
  | Except.error e => Except.error e
  | Except.ok avg_rows =>
    match runAtomic fail (insertOps offer_rows price_rows
        (avg_rows.map toStoredAvgRow)) s with
    | (s1, none) => Except.ok s1
    | (_, some _) => Except.error (PyError.storeExc "Error db on save data.")

/-- The per-file loop of main: each file is driven through step; a
StoreException is logged and the loop continues, and the bare except branch
logs any other exception and also continues. The result pairs the final store
with one log entry per file (none for success, the exception otherwise). -/
def mainLoop (step : Store → α → Except PyError Store) :
    Store → List α → Store × List (Option PyError)
  | s, [] => (s, [])
  | s, f :: fs =>
    match step s f with
    | Except.ok s1 =>
      let r := mainLoop step s1 fs
      (r.1, none :: r.2)
    | Except.error e =>
      let r := mainLoop step s fs
      (r.1, some e :: r.2)

/-- One raw CSV row as read by csv.DictReader: every field a string, keyed by
the header offer_id;date;url;address;area;floor;release_date;price;
house_material;lat;lon. -/
structure RawOffer where
  offer_id : String
  date : String
  url : String
  address : String
  area : String
  floor : String
  release_date : String
  price : String
  house_material : String
  lat : String
  lon : String
deriving DecidableEq

/-- The value of a decimal digit character, none for a non-digit. -/
def digitVal (c : Char) : Option Nat :=
  if c.isDigit then some (c.toNat - 48) else none

/-- Accumulating decimal interpretation of a character run: none as soon as a
non-digit appears. -/
def digitsToNatAux : Nat → List Char → Option Nat
  | acc, [] => some acc
  | acc, c :: cs =>
    match digitVal c with
    | none => none
    | some d => digitsToNatAux (acc * 10 + d) cs

/-- A nonempty all-digit character run read as a decimal number, the digit
parsing shared by int(), strptime and Decimal() in this model. -/
def digitsToNat : List Char → Option Nat
  | [] => none
  | cs => digitsToNatAux 0 cs

/-- str.split(sep) for a one-character separator, on the character list of a
string: the empty string yields one empty field. -/
def splitChar (sep : Char) : List Char → List (List Char)
  | [] => [[]]
  | c :: cs =>
    if c = sep then [] :: splitChar sep cs
    else
      match splitChar sep cs with
      | [] => [[c]]
      | p :: ps => (c :: p) :: ps

/-- Python int(str) on the canonical decimal forms the snapshot format uses:
an optional leading minus sign and digits. -/
def parseInt (str : String) : Option Int :=
  match str.data with
  | '-' :: cs => (digitsToNat cs).map (fun n => -(n : Int))
  | cs => (digitsToNat cs).map (fun n => (n : Int))

/-- datetime.strptime with format Y-m-d: three dash-separated decimal fields
for year, month and day, the month in 1..12 and the day in 1..31 (the exact
per-month day bound of strptime is immaterial to every claim below). The
result is a datetime.datetime with zero time part. -/
def parseDate (str : String) : Option DateTime :=
  match splitChar (Char.ofNat 45) str.data with
  | [y, m, d] =>
    match digitsToNat y, digitsToNat m, digitsToNat d with
    | some yi, some mi, some di =>
      if 1 ≤ mi ∧ mi ≤ 12 ∧ 1 ≤ di ∧ di ≤ 31 then some ⟨⟨yi, mi, di⟩⟩ else none
    | _, _, _ => none
  | _ => none

/-- Decimal(str) for the plain forms the scraper writes: an optional sign,
digits, and an optional fractional part. -/
def parseDecimal (str : String) : Option Rat :=
  let sb : Rat × List Char :=
    match str.data with
    | '-' :: cs => (-1, cs)
    | '+' :: cs => (1, cs)
    | cs => (1, cs)
  match splitChar (Char.ofNat 46) sb.2 with
  | [intPart] => (digitsToNat intPart).map (fun n => sb.1 * (n : Rat))
  | [intPart, fracPart] =>
    match digitsToNat intPart, digitsToNat fracPart with
    | some ip, some fp =>
      some (sb.1 * ((ip : Rat) + (fp : Rat) / ((10 : Rat) ^ fracPart.length)))
    | _, _ => none
  | _ => none

/-- parse_raw_offer: cast the string fields of one raw CSV row; any failure
raises StoreException. The area field is parsed with int(), divided by 100
with true division and truncated back with int(). -/
def parse_raw_offer (r : RawOffer) : Except PyError Offer :=
  match parseInt r.offer_id, parseDate r.date, parseInt r.area,
      parseInt r.floor, parseInt r.release_date, parseInt r.price,
      parseDecimal r.lat, parseDecimal r.lon with
  | some oid, some d, some ar, some fl, some rd, some pr, some la, some lo =>
    Except.ok ⟨oid, d, r.url, r.address, truncQ ((ar : Rat) / 100), fl, rd, pr,
      r.house_material, la, lo⟩
  | _, _, _, _, _, _, _, _ =>
    Except.error (PyError.storeExc "Fail parse raw offer.")

/-- read_offers on the parsed CSV rows of one file: parse each row in order,
the first failing row aborting the whole file. -/
def read_offers (rows : List RawOffer) : Except PyError (List Offer) :=
  mapExcept parse_raw_offer rows

/-- The key function of the main loop file ordering: parse the filename stem
with strptime format Y-m-d. -/
def to_date (stem : String) : Option DateTime := parseDate stem

/-- The comparison realized by sorted(FILES, key=to_date) on stems whose
parse succeeds (on a stem that fails to parse, strptime raises and the run
never reaches the loop, so the placeholder date is unreachable there). -/
def fileLe (a b : String) : Bool :=
  DateTime.leb ((to_date a).getD ⟨⟨0, 0, 0⟩⟩) ((to_date b).getD ⟨⟨0, 0, 0⟩⟩)

/-- sorted(FILES, key=to_date): the snapshot files, ordered by the date
embedded in the filename stem. -/
def orderFiles (files : List String) : List String := files.mergeSort fileLe

/-- A list of offers that is sorted by address, the shape produced by
sorted(offers, key=address). -/
def SortedByAddr (l : List Offer) : Prop :=
  List.Pairwise (fun x y => addrLe x y = true) l

/-- x is a stored average-price row for the given address, dated strictly
before d, and no such row is dated later: the row the specification calls the
most recent strictly-earlier average for the address. -/
def IsLastAvgBefore (rows : List AvgPriceRow) (a : String) (d : Date)
    (x : AvgPriceRow) : Prop :=
  x ∈ rows ∧ x.address = a ∧ Date.ltb x.date d = true ∧
    ∀ y ∈ rows, y.address = a → Date.ltb y.date d = true →
      Date.leb y.date x.date = true

/-- The mean of price over area across a list of offers, before rounding, as
computed by the get_avg_prices_rows loop body. -/
def meanPriceArea (items : List Offer) : Rat :=
  (items.map priceArea).sum / (items.length : Rat)

/-- The average-price row get_avg_prices_rows emits for one group, given the
avg_prices table used for the lookback. -/
def avgRowOf (table : List AvgPriceRow) (g : Offer × List Offer) : AvgRow :=
  ⟨g.1.address, g.1.date, round2 (meanPriceArea (g.1 :: g.2)),
    (last_avg_price table g.1.address g.1.date).map
      (fun r => round2 (meanPriceArea (g.1 :: g.2)) - (r.avg_price : Rat))⟩

/-- A failure oracle under which every insert statement succeeds. -/
def noFail : Nat → Bool := fun _ => false

/-- Concrete fixtures used to instantiate the verified statements. -/
def wDate : Date := ⟨2021, 9, 1⟩

def wDate2 : Date := ⟨2021, 9, 2⟩

def wStore : Store := ⟨[], [], []⟩

def wDT : DateTime := ⟨wDate⟩

def wOffer : Offer := ⟨1, wDT, "u", "a", 1, 1, 2000, 10, "m", 0, 0⟩

def wOfferZero : Offer := ⟨2, wDT, "u2", "a", 0, 1, 2000, 10, "m", 0, 0⟩

def wOfferHalf : Offer := ⟨3, wDT, "u3", "a", 2, 1, 2000, 31, "m", 0, 0⟩

def wOfferA1 : Offer := ⟨4, wDT, "u4", "a", 10, 1, 2000, 100, "m", 0, 0⟩

def wOfferA2 : Offer := ⟨5, wDT, "u5", "a", 10, 1, 2000, 200, "m", 0, 0⟩

def wStoreP : Store := ⟨[], [⟨9, wDate, 5⟩], []⟩

def wRaw : RawOffer :=
  ⟨"5", "2021-09-01", "u", "a", "15000", "3", "2000", "100", "m", "55", "82"⟩

def wParsed : Offer :=
  ⟨5, ⟨⟨2021, 9, 1⟩⟩, "u", "a", 150, 3, 2000, 100, "m", 55, 82⟩

/-- The store row that loading wOffer into the empty store appends to
avg_prices: mean 10/1 = 10, rounded and truncated to 10, no prior average. -/
def wRow1 : AvgPriceRow := ⟨"a", wDate, 10, none⟩

/-- The store after loading the snapshot [wOffer] once into the empty store. -/
def wS1 : Store := ⟨[toOfferRow wOffer], [⟨1, wDate, 10⟩], [wRow1]⟩

/-- The store after loading the same snapshot [wOffer] a second time: no new
offers row, but a duplicate prices row (the date-membership test never
fires) and a duplicate avg_prices row. -/
def wS2 : Store :=
  ⟨[toOfferRow wOffer], [⟨1, wDate, 10⟩, ⟨1, wDate, 10⟩], [wRow1, wRow1]⟩

/-- A driver step that fails on every file, used to instantiate the loop
resilience statement. -/
def wStep : Store → Nat → Except PyError Store :=
  fun _ _ => Except.error (PyError.other "boom")

end N1Store

namespace N1Store

/-! ### Order lemmas for Date -/

theorem Date.leb_refl (a : Date) : Date.leb a a = true := by
  simp [Date.leb]

theorem Date.leb_trans {a b c : Date} (h1 : Date.leb a b = true)
    (h2 : Date.leb b c = true) : Date.leb a c = true := by
  simp only [Date.leb, Bool.or_eq_true, Bool.and_eq_true, decide_eq_true_eq] at *
  omega

theorem Date.leb_total (a b : Date) :
    Date.leb a b = true ∨ Date.leb b a = true := by
  simp only [Date.leb, Bool.or_eq_true, Bool.and_eq_true, decide_eq_true_eq]
  omega

theorem Date.ltb_irrefl (a : Date) : Date.ltb a a = false := by
  simp [Date.ltb]

/-! ### Bridging lemmas for Bool-valued list membership -/

theorem contains_iff {α : Type} [DecidableEq α] {l : List α} {x : α} :
    l.contains x = true ↔ x ∈ l := by
  simp [List.contains, List.elem_eq_mem]

/-! ### The transactional writer -/

theorem runOps_ok (fail : Nat → Bool) (ops : List Op) :
    ∀ (i : Nat) (s : Store), (∀ k, k < ops.length → fail (i + k) = false) →
      runOps fail i ops s = (ops.foldl applyOp s, none) := by
  induction ops with
  | nil => intro i s _; rfl
  | cons op ops ih =>
    intro i s h
    have h0 : fail i = false := by simpa using h 0 (Nat.succ_pos _)
    simp only [runOps, h0, Bool.false_eq_true, if_false, List.foldl_cons]
    exact ih (i + 1) (applyOp s op) (fun k hk => by
      rw [show i + 1 + k = i + (k + 1) by omega]
      exact h (k + 1) (by simp only [List.length_cons]; omega))

theorem runOps_eq_none {fail : Nat → Bool} {ops : List Op} :
    ∀ {i : Nat} {s s1 : Store}, runOps fail i ops s = (s1, none) →
      s1 = ops.foldl applyOp s := by
  induction ops with
  | nil =>
    intro i s s1 h
    have h1 := congrArg Prod.fst h
    simp only [runOps] at h1
    exact h1.symm
  | cons op ops ih =>
    intro i s s1 h
    simp only [runOps] at h
    by_cases hf : fail i
    · simp [hf] at h
    · simp only [hf, Bool.false_eq_true, if_false] at h
      simpa using ih h

theorem runOps_fail {fail : Nat → Bool} {ops : List Op} :
    ∀ {i : Nat} {s : Store} {k : Nat}, k < ops.length → fail (i + k) = true →
      (runOps fail i ops s).2.isSome = true := by
  induction ops with
  | nil => intro i s k hk hf; simp at hk
  | cons op ops ih =>
    intro i s k hk hf
    simp only [runOps]
    by_cases h0 : fail i
    · simp [h0]
    · simp only [h0, Bool.false_eq_true, if_false]
      cases k with
      | zero => exact absurd (by simpa using hf) (by simpa using h0)
      | succ k =>
        have hk2 : k < ops.length := by
          simp only [List.length_cons] at hk
          omega
        have hf2 : fail (i + 1 + k) = true := by
          rw [show i + 1 + k = i + (k + 1) by omega]
          exact hf
        exact ih hk2 hf2

theorem chunked100_flatten_aux {α : Type} :
    ∀ (n : Nat) (xs : List α), xs.length ≤ n → (chunked100 xs).flatten = xs := by
  intro n
  induction n with
  | zero =>
    intro xs hx
    have hnil : xs = [] := List.eq_nil_of_length_eq_zero (Nat.le_zero.mp hx)
    subst hnil
    rw [chunked100]
    simp
  | succ n ih =>
    intro xs hx
    rw [chunked100]
    by_cases h : xs.isEmpty
    · simp [h, List.isEmpty_iff.mp h]
    · have hne : xs ≠ [] := by simpa [List.isEmpty_iff] using h
      have hpos : 0 < xs.length := List.length_pos.mpr hne
      rw [if_neg h]
      simp only [List.flatten_cons]
      rw [ih (xs.drop 100) (by simp only [List.length_drop]; omega),
        List.take_append_drop]

theorem chunked100_flatten {α : Type} (xs : List α) :
    (chunked100 xs).flatten = xs :=
  chunked100_flatten_aux xs.length xs (Nat.le_refl _)

theorem foldl_insOffers (cs : List (List OfferRow)) :
    ∀ (s : Store), (cs.map Op.insOffers).foldl applyOp s =
      { s with offers := s.offers ++ cs.flatten } := by
  induction cs with
  | nil => intro s; simp
  | cons c cs ih =>
    intro s
    simp [applyOp, ih, List.append_assoc]

theorem foldl_insPrices (cs : List (List PriceRow)) :
    ∀ (s : Store), (cs.map Op.insPrices).foldl applyOp s =
      { s with prices := s.prices ++ cs.flatten } := by
  induction cs with
  | nil => intro s; simp
  | cons c cs ih =>
    intro s
    simp [applyOp, ih, List.append_assoc]

theorem foldl_insAvg (cs : List (List AvgPriceRow)) :
    ∀ (s : Store), (cs.map Op.insAvg).foldl applyOp s =
      { s with avg_prices := s.avg_prices ++ cs.flatten } := by
  induction cs with
  | nil => intro s; simp
  | cons c cs ih =>
    intro s
    simp [applyOp, ih, List.append_assoc]

/-- Applying the whole insert sequence appends exactly the three row sets. -/
theorem foldl_insertOps (offerRows : List OfferRow) (priceRows : List PriceRow)
    (avgRows : List AvgPriceRow) (s : Store) :
    (insertOps offerRows priceRows avgRows).foldl applyOp s =
      ⟨s.offers ++ offerRows, s.prices ++ priceRows,
        s.avg_prices ++ avgRows⟩ := by
  simp only [insertOps, List.foldl_append, foldl_insOffers, foldl_insPrices,
    foldl_insAvg, chunked100_flatten]

/-- The transaction is all-or-nothing: either every insert succeeds and the
three row sets are appended, or the state from before the transaction is
kept and an error is reported. -/
theorem runAtomic_cases (fail : Nat → Bool) (ops : List Op) (s : Store) :
    runAtomic fail ops s = (ops.foldl applyOp s, none) ∨
      ∃ e, runAtomic fail ops s = (s, some e) := by
  unfold runAtomic
  rcases h : runOps fail 0 ops s with ⟨s1, e⟩
  cases e with
  | none => exact Or.inl (by simp [runOps_eq_none h])
  | some e => exact Or.inr ⟨e, by simp⟩

/-! ### Structure of a successful save_file run -/

theorem save_file_ok {fail : Nat → Bool} {s s1 : Store} {offers : List Offer}
    (h : save_file fail s offers = Except.ok s1) :
    ∃ avg_rows, get_avg_prices_rows s offers = Except.ok avg_rows ∧
      s1 = ⟨s.offers ++ get_offers_rows s offers,
        s.prices ++ get_price_rows s offers,
        s.avg_prices ++ avg_rows.map toStoredAvgRow⟩ := by
  unfold save_file at h
  rcases hav : get_avg_prices_rows s offers with e | avg_rows
  · rw [hav] at h
    simp at h
  · rw [hav] at h
    refine ⟨avg_rows, rfl, ?_⟩
    rcases runAtomic_cases fail (insertOps (get_offers_rows s offers)
        (get_price_rows s offers) (avg_rows.map toStoredAvgRow)) s with hc | ⟨e, hc⟩
    · simp only [hc, Except.ok.injEq] at h
      rw [← h, foldl_insertOps]
    · simp only [hc] at h
      exact absurd h (by simp)

theorem save_file_eq_ok {s : Store} {offers : List Offer}
    {avg_rows : List AvgRow}
    (hav : get_avg_prices_rows s offers = Except.ok avg_rows)
    {fail : Nat → Bool}
    (hok : ∀ k, fail k = false) :
    save_file fail s offers = Except.ok
      ⟨s.offers ++ get_offers_rows s offers,
        s.prices ++ get_price_rows s offers,
        s.avg_prices ++ avg_rows.map toStoredAvgRow⟩ := by
  have hrun : runAtomic fail (insertOps (get_offers_rows s offers)
      (get_price_rows s offers) (avg_rows.map toStoredAvgRow)) s =
      (⟨s.offers ++ get_offers_rows s offers,
        s.prices ++ get_price_rows s offers,
        s.avg_prices ++ avg_rows.map toStoredAvgRow⟩, none) := by
    unfold runAtomic
    rw [runOps_ok fail _ 0 s (fun k _ => hok (0 + k)), foldl_insertOps]
  unfold save_file
  rw [hav]
  simp only [hrun]

/-! ### The dedup row sets -/

theorem contains_filter_of_mem {α : Type} [DecidableEq α] {cand : List α}
    {x : α} (hx : x ∈ cand) (ids : List α) :
    (ids.filter (fun i => cand.contains i)).contains x = ids.contains x := by
  rw [Bool.eq_iff_iff]
  simp [contains_iff, List.mem_filter, hx]

theorem get_offers_rows_eq (s : Store) (offers : List Offer) :
    get_offers_rows s offers = (offers.filter
      (fun o => !((s.offers.map (fun r => r.offer_id)).contains o.offer_id))).map
        toOfferRow := by
  show (offers.filter (fun o =>
      !(((s.offers.map (fun r => r.offer_id)).filter
        (fun i => (offers.map (fun oo => oo.offer_id)).contains i)).contains
          o.offer_id))).map toOfferRow = _
  congr 1
  apply List.filter_congr
  intro o ho
  rw [contains_filter_of_mem (List.mem_map_of_mem (fun oo => oo.offer_id) ho)]

theorem mem_get_offers_rows {s : Store} {offers : List Offer} {r : OfferRow} :
    r ∈ get_offers_rows s offers ↔ ∃ o, o ∈ offers ∧
      (o.offer_id ∈ s.offers.map (fun rr => rr.offer_id) → False) ∧
      r = toOfferRow o := by
  rw [get_offers_rows_eq]
  constructor
  · intro h
    rcases List.mem_map.mp h with ⟨o, hmem, rfl⟩
    rcases List.mem_filter.mp hmem with ⟨ho, hpred⟩
    rw [Bool.not_eq_true'] at hpred
    refine ⟨o, ho, ?_, rfl⟩
    intro hmm
    rw [contains_iff.mpr hmm] at hpred
    exact absurd hpred (by simp)
  · rintro ⟨o, ho, hid, rfl⟩
    apply List.mem_map_of_mem
    apply List.mem_filter.mpr
    refine ⟨ho, ?_⟩
    rw [Bool.not_eq_true']
    rcases hb : ((s.offers.map (fun rr => rr.offer_id)).contains o.offer_id)
      with _ | _
    · exact hb
    · exact absurd (contains_iff.mp hb) hid

theorem get_offers_rows_eq_nil {s : Store} {offers : List Offer}
    (h : ∀ o ∈ offers, o.offer_id ∈ s.offers.map (fun r => r.offer_id)) :
    get_offers_rows s offers = [] := by
  rw [get_offers_rows_eq]
  rw [List.filter_eq_nil_iff.mpr, List.map_nil]
  intro o ho
  simp [contains_iff, h o ho]

theorem get_price_rows_eq (s : Store) (offers : List Offer) :
    get_price_rows s offers =
      offers.map (fun o => ⟨o.offer_id, o.date.date, o.price⟩) := by
  unfold get_price_rows
  show (offers.filter (fun o =>
    !((get_exists_dates s.prices).any (fun d => pyDateTimeEqDate o.date d)))).map
      (fun o => (⟨o.offer_id, o.date.date, o.price⟩ : PriceRow)) = _
  have hf : offers.filter (fun o =>
      !((get_exists_dates s.prices).any
        (fun d => pyDateTimeEqDate o.date d))) = offers :=
    List.filter_eq_self.mpr (fun o _ => by
      simp [pyDateTimeEqDate])
  rw [hf]

/-! ### The address order and the sorted batch -/

theorem addrLe_trans {a b c : Offer} (h1 : addrLe a b = true)
    (h2 : addrLe b c = true) : addrLe a c = true := by
  simp only [addrLe, decide_eq_true_eq] at *
  exact le_trans h1 h2

theorem addrLe_total (a b : Offer) : (addrLe a b || addrLe b a) = true := by
  simp only [addrLe, Bool.or_eq_true, decide_eq_true_eq]
  exact le_total a.address b.address

theorem sortedByAddr_mergeSort (l : List Offer) :
    SortedByAddr (l.mergeSort addrLe) := by
  exact @List.sorted_mergeSort Offer addrLe
    (fun a b c => addrLe_trans) (fun a b => addrLe_total a b) l

/-! ### groupAdjacent: structure of the grouped sorted batch -/

theorem groupAdjacent_flatten_aux : ∀ (n : Nat) (l : List Offer),
    l.length ≤ n →
    ((groupAdjacent l).map (fun g => g.1 :: g.2)).flatten = l := by
  intro n
  induction n with
  | zero =>
    intro l hl
    have hnil : l = [] := List.eq_nil_of_length_eq_zero (Nat.le_zero.mp hl)
    subst hnil
    rw [groupAdjacent]
    rfl
  | succ n ih =>
    intro l hl
    match l with
    | [] => rw [groupAdjacent]; rfl
    | a :: rest =>
      rw [groupAdjacent]
      simp only [List.map_cons, List.flatten_cons, List.cons_append]
      rw [ih (rest.dropWhile fun b => b.address == a.address) (by
        have hle := (List.dropWhile_sublist
          (fun b => b.address == a.address) (l := rest)).length_le
        simp only [List.length_cons] at hl
        omega)]
      rw [List.takeWhile_append_dropWhile]

theorem groupAdjacent_flatten (l : List Offer) :
    ((groupAdjacent l).map (fun g => g.1 :: g.2)).flatten = l :=
  groupAdjacent_flatten_aux l.length l (Nat.le_refl _)

theorem mem_of_mem_groupAdjacent {l : List Offer} {g : Offer × List Offer}
    (hg : g ∈ groupAdjacent l) {x : Offer} (hx : x ∈ g.1 :: g.2) : x ∈ l := by
  rw [← groupAdjacent_flatten l]
  exact List.mem_flatten.mpr ⟨g.1 :: g.2,
    List.mem_map_of_mem (fun g => g.1 :: g.2) hg, hx⟩

theorem exists_group_of_mem {l : List Offer} {x : Offer} (hx : x ∈ l) :
    ∃ g ∈ groupAdjacent l, x ∈ g.1 :: g.2 := by
  rw [← groupAdjacent_flatten l] at hx
  rcases List.mem_flatten.mp hx with ⟨ys, hys, hxy⟩
  rcases List.mem_map.mp hys with ⟨g, hg, rfl⟩
  exact ⟨g, hg, hxy⟩

theorem groupAdjacent_all_addr_aux : ∀ (n : Nat) (l : List Offer),
    l.length ≤ n →
    ∀ g ∈ groupAdjacent l, ∀ x ∈ g.1 :: g.2, x.address = g.1.address := by
  intro n
  induction n with
  | zero =>
    intro l hl
    have hnil : l = [] := List.eq_nil_of_length_eq_zero (Nat.le_zero.mp hl)
    subst hnil
    rw [groupAdjacent]
    intro g hg
    cases hg
  | succ n ih =>
    intro l hl g hg
    match l with
    | [] => rw [groupAdjacent] at hg; cases hg
    | a :: rest =>
      rw [groupAdjacent] at hg
      rcases List.mem_cons.mp hg with rfl | hg2
      · intro x hx
        rcases List.mem_cons.mp hx with rfl | hx2
        · rfl
        · exact beq_iff_eq.mp
            (List.mem_takeWhile_imp (p := fun b : Offer => b.address == a.address) hx2)
      · refine ih (rest.dropWhile fun b => b.address == a.address) ?_ g hg2
        have hle := (List.dropWhile_sublist
          (fun b => b.address == a.address) (l := rest)).length_le
        simp only [List.length_cons] at hl
        omega

theorem groupAdjacent_all_addr {l : List Offer} {g : Offer × List Offer}
    (hg : g ∈ groupAdjacent l) {x : Offer} (hx : x ∈ g.1 :: g.2) :
    x.address = g.1.address :=
  groupAdjacent_all_addr_aux l.length l (Nat.le_refl _) g hg x hx

theorem filter_addr_eq_takeWhile {a : Offer} : ∀ {rest : List Offer},
    List.Pairwise (fun x y => addrLe x y = true) rest →
    (∀ x ∈ rest, addrLe a x = true) →
    rest.filter (fun b => b.address == a.address) =
      rest.takeWhile (fun b => b.address == a.address) := by
  intro rest
  induction rest with
  | nil => intro _ _; rfl
  | cons x xs ih =>
    intro hp hlb
    rcases List.pairwise_cons.mp hp with ⟨hx, hxs⟩
    by_cases hxa : (x.address == a.address) = true
    · rw [List.filter_cons_of_pos (p := fun b : Offer => b.address == a.address) hxa,
        List.takeWhile_cons_of_pos (p := fun b : Offer => b.address == a.address) hxa]
      rw [ih hxs (fun y hy => hlb y (List.mem_cons_of_mem _ hy))]
    · have hxa2 : (x.address == a.address) = false := by
        simpa using hxa
      rw [List.filter_cons_of_neg (p := fun b : Offer => b.address == a.address)
          (by simp [hxa2]),
        List.takeWhile_cons_of_neg (p := fun b : Offer => b.address == a.address)
          (by simp [hxa2])]
      rw [List.filter_eq_nil_iff.mpr]
      intro y hy hya
      have h1 : a.address ≤ x.address := by
        have := hlb x (List.mem_cons_self x xs)
        simpa [addrLe] using this
      have h2 : x.address ≤ y.address := by
        have := hx y hy
        simpa [addrLe] using this
      have h3 : y.address = a.address := beq_iff_eq.mp hya
      have h4 : x.address = a.address :=
        le_antisymm (h3 ▸ h2) h1
      simp [h4] at hxa2

theorem dropWhile_addr_ne {a : Offer} : ∀ {rest : List Offer},
    List.Pairwise (fun x y => addrLe x y = true) rest →
    (∀ x ∈ rest, addrLe a x = true) →
    ∀ y ∈ rest.dropWhile (fun b => b.address == a.address),
      ¬(y.address = a.address) := by
  intro rest
  induction rest with
  | nil => intro _ _ y hy; cases hy
  | cons x xs ih =>
    intro hp hlb
    rcases List.pairwise_cons.mp hp with ⟨hx, hxs⟩
    by_cases hxa : (x.address == a.address) = true
    · rw [List.dropWhile_cons_of_pos (p := fun b : Offer => b.address == a.address) hxa]
      exact ih hxs (fun y hy => hlb y (List.mem_cons_of_mem _ hy))
    · have hxa2 : ¬(x.address = a.address) := by simpa using hxa
      rw [List.dropWhile_cons_of_neg (p := fun b : Offer => b.address == a.address) hxa]
      intro y hy
      rcases List.mem_cons.mp hy with rfl | hy2
      · exact hxa2
      · intro h3
        have h1 : a.address ≤ x.address := by
          have := hlb x (List.mem_cons_self x xs)
          simpa [addrLe] using this
        have h2 : x.address ≤ y.address := by
          have := hx y hy2
          simpa [addrLe] using this
        exact hxa2 (le_antisymm (h3 ▸ h2) h1)

theorem groupAdjacent_sorted_spec_aux : ∀ (n : Nat) (l : List Offer),
    l.length ≤ n → SortedByAddr l →
    (∀ g ∈ groupAdjacent l,
      g.1 :: g.2 = l.filter (fun x => x.address == g.1.address)) ∧
    List.Pairwise (fun g1 g2 => ¬(g1.1.address = g2.1.address))
      (groupAdjacent l) := by
  intro n
  induction n with
  | zero =>
    intro l hl _
    have hnil : l = [] := List.eq_nil_of_length_eq_zero (Nat.le_zero.mp hl)
    subst hnil
    rw [groupAdjacent]
    exact ⟨fun g hg => (by cases hg), List.Pairwise.nil⟩
  | succ n ih =>
    intro l hl hs
    match l with
    | [] =>
      rw [groupAdjacent]
      exact ⟨fun g hg => (by cases hg), List.Pairwise.nil⟩
    | a :: rest =>
      rcases List.pairwise_cons.mp hs with ⟨ha, hrest⟩
      have hlen : (rest.dropWhile fun b => b.address == a.address).length ≤ n := by
        have hle := (List.dropWhile_sublist
          (fun b : Offer => b.address == a.address) (l := rest)).length_le
        simp only [List.length_cons] at hl
        omega
      have hsorted2 :
          SortedByAddr (rest.dropWhile fun b => b.address == a.address) :=
        List.Pairwise.sublist (List.dropWhile_sublist _) hrest
      have hdw := dropWhile_addr_ne hrest ha
      rcases ih _ hlen hsorted2 with ⟨ihfilter, ihpw⟩
      rw [groupAdjacent]
      constructor
      · intro g hg
        rcases List.mem_cons.mp hg with rfl | hg2
        · show a :: (rest.takeWhile fun b => b.address == a.address) = _
          rw [List.filter_cons_of_pos
            (p := fun x : Offer => x.address ==
              ((a, rest.takeWhile fun b => b.address == a.address)).1.address)
            (by simp)]
          congr 1
          exact (filter_addr_eq_takeWhile hrest ha).symm
        · have hgf := ihfilter g hg2
          have hg1mem : g.1 ∈ rest.dropWhile fun b => b.address == a.address :=
            mem_of_mem_groupAdjacent hg2 (List.mem_cons_self _ _)
          have hga : ¬(g.1.address = a.address) := hdw g.1 hg1mem
          rw [hgf]
          rw [List.filter_cons_of_neg
            (p := fun x : Offer => x.address == g.1.address)
            (by simp; exact fun h => hga h.symm)]
          conv_rhs => rw [← List.takeWhile_append_dropWhile
            (fun b : Offer => b.address == a.address) (l := rest)]
          rw [List.filter_append]
          have htw : (rest.takeWhile fun b => b.address == a.address).filter
              (fun x : Offer => x.address == g.1.address) = [] := by
            apply List.filter_eq_nil_iff.mpr
            intro y hy hyg
            have hya : y.address = a.address := beq_iff_eq.mp
              (List.mem_takeWhile_imp (p := fun b : Offer =>
                b.address == a.address) hy)
            apply hga
            rw [← beq_iff_eq.mp hyg]
            exact hya
          rw [htw, List.nil_append]
      · apply List.pairwise_cons.mpr
        refine ⟨?_, ihpw⟩
        intro g2 hg2
        have hg2mem : g2.1 ∈ rest.dropWhile fun b => b.address == a.address :=
          mem_of_mem_groupAdjacent hg2 (List.mem_cons_self _ _)
        have hne : ¬(g2.1.address = a.address) := hdw g2.1 hg2mem
        exact fun h => hne h.symm

theorem groupAdjacent_filter {l : List Offer} (hs : SortedByAddr l)
    {g : Offer × List Offer} (hg : g ∈ groupAdjacent l) :
    g.1 :: g.2 = l.filter (fun x => x.address == g.1.address) :=
  (groupAdjacent_sorted_spec_aux l.length l (Nat.le_refl _) hs).1 g hg

theorem groupAdjacent_addr_nodup {l : List Offer} (hs : SortedByAddr l) :
    List.Pairwise (fun g1 g2 => ¬(g1.1.address = g2.1.address))
      (groupAdjacent l) :=
  (groupAdjacent_sorted_spec_aux l.length l (Nat.le_refl _) hs).2

end N1Store

namespace N1Store

/-! ### last_avg_price: correctness of the lookback query -/

theorem pairwise_getLast {α : Type} {R : α → α → Prop} :
    ∀ {l : List α} {x : α}, l.Pairwise R → l.getLast? = some x →
      ∀ y ∈ l, y = x ∨ R y x := by
  intro l
  induction l with
  | nil => intro x _ h; cases h
  | cons z zs ih =>
    intro x hp hl y hy
    cases zs with
    | nil =>
      simp only [List.getLast?_singleton, Option.some.injEq] at hl
      subst hl
      rcases List.mem_singleton.mp hy with rfl
      exact Or.inl rfl
    | cons w ws =>
      rw [List.getLast?_cons_cons] at hl
      rcases List.pairwise_cons.mp hp with ⟨hz, hzs⟩
      rcases List.mem_cons.mp hy with rfl | hy2
      · exact Or.inr (hz x (List.mem_of_mem_getLast? hl))
      · exact ih hzs hl y hy2

theorem sorted_mergeSort_dates (l : List AvgPriceRow) :
    (l.mergeSort (fun a b => Date.leb a.date b.date)).Pairwise
      (fun a b => Date.leb a.date b.date = true) :=
  @List.sorted_mergeSort AvgPriceRow (fun a b => Date.leb a.date b.date)
    (fun a b c h1 h2 => Date.leb_trans h1 h2)
    (fun a b => by
      rcases Date.leb_total a.date b.date with h | h <;> simp [h]) l

theorem last_avg_price_some {rows : List AvgPriceRow} {a : String}
    {d : DateTime} {x : AvgPriceRow} (h : last_avg_price rows a d = some x) :
    IsLastAvgBefore rows a d.date x := by
  unfold last_avg_price at h
  have hx_sorted : x ∈ (rows.filter
      (fun r => r.address == a && Date.ltb r.date d.date)).mergeSort
        (fun p q => Date.leb p.date q.date) :=
    List.mem_of_mem_getLast? h
  have hx_cands := List.mem_filter.mp (List.mem_mergeSort.mp hx_sorted)
  have hx_props := hx_cands.2
  simp only [Bool.and_eq_true, beq_iff_eq] at hx_props
  refine ⟨hx_cands.1, hx_props.1, hx_props.2, ?_⟩
  intro y hy hya hyd
  have hy_sorted : y ∈ (rows.filter
      (fun r => r.address == a && Date.ltb r.date d.date)).mergeSort
        (fun p q => Date.leb p.date q.date) :=
    List.mem_mergeSort.mpr (List.mem_filter.mpr ⟨hy, by simp [hya, hyd]⟩)
  rcases pairwise_getLast (sorted_mergeSort_dates _) h y hy_sorted with rfl | hr
  · exact Date.leb_refl _
  · exact hr

theorem last_avg_price_none {rows : List AvgPriceRow} {a : String}
    {d : DateTime} (h : last_avg_price rows a d = none) :
    ∀ y ∈ rows, y.address = a → Date.ltb y.date d.date = true → False := by
  unfold last_avg_price at h
  rw [List.getLast?_eq_none_iff] at h
  have hnil : rows.filter
      (fun r => r.address == a && Date.ltb r.date d.date) = [] := by
    have hlen := congrArg List.length h
    rw [List.length_mergeSort] at hlen
    exact List.eq_nil_of_length_eq_zero (by simpa using hlen)
  intro y hy hya hyd
  have hmem : y ∈ rows.filter
      (fun r => r.address == a && Date.ltb r.date d.date) :=
    List.mem_filter.mpr ⟨hy, by simp [hya, hyd]⟩
  rw [hnil] at hmem
  cases hmem

theorem last_avg_price_append {rows extra : List AvgPriceRow} {a : String}
    {d : DateTime} (h : ∀ r ∈ extra, Date.ltb r.date d.date = false) :
    last_avg_price (rows ++ extra) a d = last_avg_price rows a d := by
  unfold last_avg_price
  rw [List.filter_append]
  have hnil : extra.filter
      (fun r => r.address == a && Date.ltb r.date d.date) = [] :=
    List.filter_eq_nil_iff.mpr (fun r hr => by simp [h r hr])
  rw [hnil, List.append_nil]

/-! ### mapExcept: the effectful loop over groups -/

theorem mapExcept_ok_iff {α β : Type} {f : α → Except PyError β} :
    ∀ {l : List α} {ys : List β}, mapExcept f l = Except.ok ys ↔
      List.Forall₂ (fun x y => f x = Except.ok y) l ys := by
  intro l
  induction l with
  | nil =>
    intro ys
    constructor
    · intro h
      simp only [mapExcept, Except.ok.injEq] at h
      subst h
      exact List.Forall₂.nil
    · intro h
      rcases List.forall₂_nil_left_iff.mp h with rfl
      rfl
  | cons x xs ih =>
    intro ys
    constructor
    · intro h
      simp only [mapExcept] at h
      rcases hfx : f x with e | y
      · rw [hfx] at h; cases h
      · rw [hfx] at h
        rcases hrec : mapExcept f xs with e | ys2
        · rw [hrec] at h; cases h
        · rw [hrec] at h
          simp only [Except.ok.injEq] at h
          subst h
          exact List.Forall₂.cons hfx (ih.mp hrec)
    · intro h
      rcases List.forall₂_cons_left_iff.mp h with ⟨y, ys2, hfx, htail, rfl⟩
      simp only [mapExcept, hfx]
      rw [ih.mpr htail]

theorem mapExcept_error {α β : Type} {f : α → Except PyError β} {E : PyError} :
    ∀ {l : List α}, (∀ x ∈ l, f x = Except.error E ∨ ∃ y, f x = Except.ok y) →
      (∃ x ∈ l, f x = Except.error E) → mapExcept f l = Except.error E := by
  intro l
  induction l with
  | nil =>
    intro _ hex
    rcases hex with ⟨x, hx, _⟩
    cases hx
  | cons z zs ih =>
    intro hall hex
    rcases hall z (List.mem_cons_self _ _) with hz | ⟨y, hz⟩
    · simp [mapExcept, hz]
    · simp only [mapExcept, hz]
      have hex2 : ∃ x ∈ zs, f x = Except.error E := by
        rcases hex with ⟨x, hx, hxe⟩
        rcases List.mem_cons.mp hx with rfl | hx2
        · rw [hz] at hxe; cases hxe
        · exact ⟨x, hx2, hxe⟩
      rw [ih (fun x hx => hall x (List.mem_cons_of_mem _ hx)) hex2]

theorem forall2_mem_right {α β : Type} {R : α → β → Prop} :
    ∀ {l : List α} {ys : List β}, List.Forall₂ R l ys →
      ∀ y ∈ ys, ∃ x ∈ l, R x y := by
  intro l ys hf
  induction hf with
  | nil => intro y hy; cases hy
  | cons hr hf2 ih =>
    intro y hy
    rcases List.mem_cons.mp hy with rfl | hy2
    · exact ⟨_, List.mem_cons_self _ _, hr⟩
    · rcases ih y hy2 with ⟨x, hx, hxy⟩
      exact ⟨x, List.mem_cons_of_mem _ hx, hxy⟩

theorem forall2_mem_left {α β : Type} {R : α → β → Prop} :
    ∀ {l : List α} {ys : List β}, List.Forall₂ R l ys →
      ∀ x ∈ l, ∃ y ∈ ys, R x y := by
  intro l ys hf
  induction hf with
  | nil => intro x hx; cases hx
  | cons hr hf2 ih =>
    intro x hx
    rcases List.mem_cons.mp hx with rfl | hx2
    · exact ⟨_, List.mem_cons_self _ _, hr⟩
    · rcases ih x hx2 with ⟨y, hy, hxy⟩
      exact ⟨y, List.mem_cons_of_mem _ hy, hxy⟩

theorem forall2_pairwise {α β : Type} {R : α → β → Prop} {P : α → α → Prop}
    {Q : β → β → Prop}
    (himp : ∀ x y x2 y2, R x y → R x2 y2 → P x x2 → Q y y2) :
    ∀ {l : List α} {ys : List β}, List.Forall₂ R l ys → List.Pairwise P l →
      List.Pairwise Q ys := by
  intro l ys hf
  induction hf with
  | nil => intro _; exact List.Pairwise.nil
  | cons hr hf2 ih =>
    intro hp
    rcases List.pairwise_cons.mp hp with ⟨hhead, htail⟩
    refine List.pairwise_cons.mpr ⟨?_, ih htail⟩
    intro y2 hy2
    rcases forall2_mem_right hf2 y2 hy2 with ⟨x2, hx2, hr2⟩
    exact himp _ _ _ _ hr hr2 (hhead x2 hx2)

end N1Store

namespace N1Store

/-! ### avg_group_row and get_avg_prices_rows -/

theorem avg_group_row_ok {table : List AvgPriceRow} {g : Offer × List Offer}
    (h : ∀ i ∈ g.1 :: g.2, ¬(i.area = 0)) :
    avg_group_row table g = Except.ok (avgRowOf table g) := by
  unfold avg_group_row
  rw [if_neg (by
    simp only [List.any_eq_true, beq_iff_eq, not_exists]
    intro i
    rw [not_and]
    exact h i)]
  rfl

theorem avg_group_row_error {table : List AvgPriceRow} {g : Offer × List Offer}
    (h : ∃ i ∈ g.1 :: g.2, i.area = 0) :
    avg_group_row table g = Except.error PyError.zeroDivision := by
  unfold avg_group_row
  rw [if_pos (by
    simp only [List.any_eq_true, beq_iff_eq]
    exact h)]

theorem avg_group_row_cases (table : List AvgPriceRow) (g : Offer × List Offer) :
    avg_group_row table g = Except.error PyError.zeroDivision ∨
      ∃ y, avg_group_row table g = Except.ok y := by
  unfold avg_group_row
  by_cases hc : ((g.1 :: g.2).any fun i => i.area == 0) = true
  · rw [if_pos hc]
    exact Or.inl rfl
  · rw [if_neg hc]
    exact Or.inr ⟨_, rfl⟩

theorem get_avg_prices_rows_error {s : Store} {offers : List Offer}
    (h : ∃ o ∈ offers, o.area = 0) :
    get_avg_prices_rows s offers = Except.error PyError.zeroDivision := by
  unfold get_avg_prices_rows
  apply mapExcept_error
  · intro g _
    exact avg_group_row_cases _ _
  · rcases h with ⟨o, ho, hoa⟩
    have hms : o ∈ offers.mergeSort addrLe := List.mem_mergeSort.mpr ho
    rcases exists_group_of_mem hms with ⟨g, hg, hog⟩
    exact ⟨g, hg, avg_group_row_error ⟨o, hog, hoa⟩⟩

theorem get_avg_prices_rows_ok {s : Store} {offers : List Offer}
    (h : ∀ o ∈ offers, ¬(o.area = 0)) :
    get_avg_prices_rows s offers = Except.ok
      ((groupAdjacent (offers.mergeSort addrLe)).map
        (avgRowOf s.avg_prices)) := by
  unfold get_avg_prices_rows
  rw [mapExcept_ok_iff, List.forall₂_map_right_iff]
  apply List.forall₂_same.mpr
  intro g hg
  exact avg_group_row_ok (fun i hi hia =>
    h i (List.mem_mergeSort.mp (mem_of_mem_groupAdjacent hg hi)) hia)

theorem meanPriceArea_perm {l1 l2 : List Offer} (h : l1.Perm l2) :
    meanPriceArea l1 = meanPriceArea l2 := by
  unfold meanPriceArea
  rw [(h.map priceArea).sum_eq, h.length_eq]

end N1Store

namespace N1Store

/-! ### Numeric evaluation lemmas -/

theorem ratFloor_eq (q : Rat) : Rat.floor q = Int.floor q := rfl

theorem truncQ_nonneg_eq {q : Rat} (h : ¬(q < 0)) :
    truncQ q = Int.floor q := by
  unfold truncQ
  rw [if_neg h, ratFloor_eq]

theorem truncQ_big_area : truncQ ((15000 : Rat) / 100) = 150 := by
  rw [truncQ_nonneg_eq (by norm_num),
    show ((15000 : Rat) / 100) = ((150 : Int) : Rat) by norm_num]
  exact Int.floor_intCast 150

/-! ### Verified claims -/

/-- C7: for every raw snapshot row that parse_raw_offer accepts, the stored
area value is the raw area field parsed as an integer, divided by 100 with
true division, and truncated back to an integer. -/
theorem c7_area_scaling (r : RawOffer) (o : Offer)
    (h : parse_raw_offer r = Except.ok o) :
    ∃ a : Int, parseInt r.area = some a ∧ o.area = truncQ ((a : Rat) / 100) := by
  unfold parse_raw_offer at h
  rcases h1 : parseInt r.offer_id with _ | oid
  · rw [h1] at h; simp at h
  rcases h2 : parseDate r.date with _ | d
  · rw [h1, h2] at h; simp at h
  rcases h3 : parseInt r.area with _ | ar
  · rw [h1, h2, h3] at h; simp at h
  rcases h4 : parseInt r.floor with _ | fl
  · rw [h1, h2, h3, h4] at h; simp at h
  rcases h5 : parseInt r.release_date with _ | rd
  · rw [h1, h2, h3, h4, h5] at h; simp at h
  rcases h6 : parseInt r.price with _ | pr
  · rw [h1, h2, h3, h4, h5, h6] at h; simp at h
  rcases h7 : parseDecimal r.lat with _ | la
  · rw [h1, h2, h3, h4, h5, h6, h7] at h; simp at h
  rcases h8 : parseDecimal r.lon with _ | lo
  · rw [h1, h2, h3, h4, h5, h6, h7, h8] at h; simp at h
  rw [h1, h2, h3, h4, h5, h6, h7, h8] at h
  simp only [Except.ok.injEq] at h
  subst h
  exact ⟨ar, rfl, rfl⟩

/-- Witness for C7 at the raw row of the specification example: the raw area
field 15000 is accepted and stored as area 150. -/
theorem c7_area_scaling_witness :
    parse_raw_offer wRaw = Except.ok wParsed ∧
    ∃ a : Int, parseInt "15000" = some a ∧
      (150 : Int) = truncQ ((a : Rat) / 100) := by
  have hp : parse_raw_offer wRaw = Except.ok wParsed := by
    unfold parse_raw_offer
    rw [show parseInt wRaw.offer_id = some 5 from by decide,
      show parseDate wRaw.date = some ⟨2021, 9, 1⟩ from by decide,
      show parseInt wRaw.area = some 15000 from by decide,
      show parseInt wRaw.floor = some 3 from by decide,
      show parseInt wRaw.release_date = some 2000 from by decide,
      show parseInt wRaw.price = some 100 from by decide]
    have hlat : parseDecimal wRaw.lat = some 55 := by
      show parseDecimal "55" = some 55
      simp [parseDecimal, splitChar, digitsToNat, digitsToNatAux, digitVal]
    have hlon : parseDecimal wRaw.lon = some 82 := by
      show parseDecimal "82" = some 82
      simp [parseDecimal, splitChar, digitsToNat, digitsToNatAux, digitVal]
    rw [hlat, hlon]
    show Except.ok _ = Except.ok wParsed
    rw [Except.ok.injEq]
    show (⟨5, ⟨2021, 9, 1⟩, "u", "a", truncQ ((15000 : Rat) / 100), 3, 2000,
      100, "m", 55, 82⟩ : Offer) = wParsed
    rw [truncQ_big_area]
    rfl
  exact ⟨hp, c7_area_scaling _ _ hp⟩

/-- C2: the claimed date-granularity dedup never fires on the code. The
offer date is the datetime.datetime strptime produced, while the dates
queried from the prices table are datetime.date values, and Python never
equates the two; so get_price_rows always emits one observation row per
candidate, independent of the store and hence of whether the candidate's
listing row was new, even when the batch date is already present in the
prices table - as at the concrete store below, which already holds a row
for the batch date. -/
theorem c2_price_date_dedup_dead (s : Store) (offers : List Offer) :
    get_price_rows s offers =
      offers.map (fun o => ⟨o.offer_id, o.date.date, o.price⟩) ∧
    (wDate ∈ get_exists_dates wStoreP.prices ∧
      get_price_rows wStoreP [wOffer] =
        [⟨wOffer.offer_id, wDate, wOffer.price⟩]) := by
  refine ⟨get_price_rows_eq s offers, ?_, ?_⟩
  · decide
  · rw [get_price_rows_eq]
    rfl

end N1Store

namespace N1Store

/-- C3: a listing id is written at most once, ever. Any candidate whose id is
already recorded is excluded from the new-listing rows; a successful
save_file only appends to the offers table, so the first-persisted attribute
values of existing rows are never overwritten; and with the upstream
contract that batch ids are unique, the offers table keeps at most one row
per id. -/
theorem c3_listing_first_write {fail : Nat → Bool} {s s1 : Store}
    {offers : List Offer}
    (hs : (s.offers.map (fun r => r.offer_id)).Nodup)
    (hb : (offers.map (fun o => o.offer_id)).Nodup)
    (h : save_file fail s offers = Except.ok s1) :
    (∀ r ∈ get_offers_rows s offers,
      (r.offer_id ∈ s.offers.map (fun rr => rr.offer_id) → False)) ∧
    s1.offers = s.offers ++ get_offers_rows s offers ∧
    (s1.offers.map (fun r => r.offer_id)).Nodup := by
  have hmem : ∀ r ∈ get_offers_rows s offers,
      (r.offer_id ∈ s.offers.map (fun rr => rr.offer_id) → False) := by
    intro r hr
    rcases mem_get_offers_rows.mp hr with ⟨o, _, hid, rfl⟩
    exact hid
  rcases save_file_ok h with ⟨avg_rows, _, rfl⟩
  refine ⟨hmem, rfl, ?_⟩
  rw [List.map_append]
  refine List.Nodup.append hs ?_ ?_
  · rw [get_offers_rows_eq, List.map_map]
    have hsub : ((offers.filter (fun o =>
        !((s.offers.map (fun r => r.offer_id)).contains o.offer_id))).map
          (fun o => o.offer_id)).Sublist (offers.map (fun o => o.offer_id)) :=
      (List.filter_sublist _).map _
    exact hb.sublist hsub
  · intro a ha1 ha2
    rcases List.mem_map.mp ha2 with ⟨r, hr, rfl⟩
    exact hmem r hr ha1

/-- Witness for C3: one new listing saved into the empty store. -/
theorem c3_listing_first_write_witness :
    save_file noFail wStore [wOffer] = Except.ok
      ⟨wStore.offers ++ get_offers_rows wStore [wOffer],
        wStore.prices ++ get_price_rows wStore [wOffer],
        wStore.avg_prices ++ ((groupAdjacent ([wOffer].mergeSort addrLe)).map
          (avgRowOf wStore.avg_prices)).map toStoredAvgRow⟩ ∧
    ((∀ r ∈ get_offers_rows wStore [wOffer],
      (r.offer_id ∈ wStore.offers.map (fun rr => rr.offer_id) → False)) ∧
    (wStore.offers ++ get_offers_rows wStore [wOffer]) =
      wStore.offers ++ get_offers_rows wStore [wOffer] ∧
    (((wStore.offers ++ get_offers_rows wStore [wOffer]).map
      (fun r => r.offer_id)).Nodup)) := by
  have h : save_file noFail wStore [wOffer] = Except.ok
      ⟨wStore.offers ++ get_offers_rows wStore [wOffer],
        wStore.prices ++ get_price_rows wStore [wOffer],
        wStore.avg_prices ++ ((groupAdjacent ([wOffer].mergeSort addrLe)).map
          (avgRowOf wStore.avg_prices)).map toStoredAvgRow⟩ :=
    save_file_eq_ok (get_avg_prices_rows_ok (by decide)) (fun k => rfl)
  exact ⟨h, c3_listing_first_write (by decide) (by decide) h⟩

end N1Store

namespace N1Store

theorem fileLe_trans {a b c : String} (h1 : fileLe a b = true)
    (h2 : fileLe b c = true) : fileLe a c = true := by
  unfold fileLe DateTime.leb at *
  exact Date.leb_trans h1 h2

theorem fileLe_total (a b : String) : (fileLe a b || fileLe b a) = true := by
  unfold fileLe DateTime.leb
  rcases Date.leb_total ((to_date a).getD ⟨⟨0, 0, 0⟩⟩).date
    ((to_date b).getD ⟨⟨0, 0, 0⟩⟩).date with h | h <;> simp [h]

/-- C8: the driver orders the snapshot files by parsing the date embedded in
each filename stem and sorting on it: the processed sequence is a permutation
of the available files that is ascending in the embedded dates. -/
theorem c8_chronological_order (files : List String)
    (hparse : ∀ f ∈ files, (to_date f).isSome = true) :
    (orderFiles files).Perm files ∧
    List.Pairwise (fun a b => ∃ da db, to_date a = some da ∧
      to_date b = some db ∧ DateTime.leb da db = true) (orderFiles files) := by
  constructor
  · exact List.mergeSort_perm files fileLe
  · have hsorted : (files.mergeSort fileLe).Pairwise
        (fun a b => fileLe a b = true) :=
      @List.sorted_mergeSort String fileLe
        (fun a b c h1 h2 => fileLe_trans h1 h2)
        (fun a b => fileLe_total a b) files
    refine List.Pairwise.imp_of_mem ?_ hsorted
    intro a b ha hb hab
    have hfa := hparse a (List.mem_mergeSort.mp ha)
    have hfb := hparse b (List.mem_mergeSort.mp hb)
    rcases Option.isSome_iff_exists.mp hfa with ⟨da, hda⟩
    rcases Option.isSome_iff_exists.mp hfb with ⟨db, hdb⟩
    refine ⟨da, db, hda, hdb, ?_⟩
    unfold fileLe at hab
    rw [hda, hdb] at hab
    simpa using hab

/-- Witness for C8: two stems in reverse chronological order. -/
theorem c8_chronological_order_witness :
    (∀ f ∈ ["2021-09-02", "2021-09-01"], (to_date f).isSome = true) ∧
    ((orderFiles ["2021-09-02", "2021-09-01"]).Perm
      ["2021-09-02", "2021-09-01"] ∧
    List.Pairwise (fun a b => ∃ da db, to_date a = some da ∧
      to_date b = some db ∧ DateTime.leb da db = true)
      (orderFiles ["2021-09-02", "2021-09-01"])) :=
  ⟨by decide, c8_chronological_order _ (by decide)⟩

theorem mainLoop_length {α : Type} (step : Store → α → Except PyError Store) :
    ∀ (s : Store) (files : List α),
      (mainLoop step s files).2.length = files.length := by
  intro s files
  induction files generalizing s with
  | nil => rfl
  | cons f fs ih =>
    simp only [mainLoop]
    rcases h : step s f with e | s1 <;> simp [h, ih]

theorem mainLoop_append {α : Type} (step : Store → α → Except PyError Store) :
    ∀ (fs1 : List α) (s : Store) (fs2 : List α),
      mainLoop step s (fs1 ++ fs2) =
        ((mainLoop step (mainLoop step s fs1).1 fs2).1,
          (mainLoop step s fs1).2 ++
            (mainLoop step (mainLoop step s fs1).1 fs2).2) := by
  intro fs1
  induction fs1 with
  | nil => intro s fs2; simp [mainLoop]
  | cons f fs ih =>
    intro s fs2
    simp only [List.cons_append, mainLoop]
    rcases h : step s f with e | s1 <;> simp [h, ih]

/-- C9: every per-file error is caught at the loop boundary and recorded,
and the loop continues: the log has one entry per file whatever the
outcomes, a failing file contributes its error to the log while leaving the
store unchanged for the rest of the run, and processing a concatenation
always processes the second part after the first. -/
theorem c9_per_file_error_isolation {α : Type}
    (step : Store → α → Except PyError Store) (s : Store) (files : List α) :
    (mainLoop step s files).2.length = files.length ∧
    (∀ (f : α) (fs : List α) (e : PyError), step s f = Except.error e →
      mainLoop step s (f :: fs) =
        ((mainLoop step s fs).1, some e :: (mainLoop step s fs).2)) ∧
    (∀ fs1 fs2 : List α, mainLoop step s (fs1 ++ fs2) =
      ((mainLoop step (mainLoop step s fs1).1 fs2).1,
        (mainLoop step s fs1).2 ++
          (mainLoop step (mainLoop step s fs1).1 fs2).2)) := by
  refine ⟨mainLoop_length step s files, ?_, fun fs1 fs2 => mainLoop_append step fs1 s fs2⟩
  intro f fs e herr
  simp [mainLoop, herr]

/-- Witness for C9: a step that fails on every file still yields one log
entry per file and never halts the loop. -/
theorem c9_per_file_error_isolation_witness :
    (mainLoop wStep wStore [0, 1]).2.length = ([0, 1] : List Nat).length ∧
    (∀ (f : Nat) (fs : List Nat) (e : PyError),
      wStep wStore f = Except.error e →
      mainLoop wStep wStore (f :: fs) =
        ((mainLoop wStep wStore fs).1,
          some e :: (mainLoop wStep wStore fs).2)) ∧
    (∀ fs1 fs2 : List Nat, mainLoop wStep wStore (fs1 ++ fs2) =
      ((mainLoop wStep (mainLoop wStep wStore fs1).1 fs2).1,
        (mainLoop wStep wStore fs1).2 ++
          (mainLoop wStep (mainLoop wStep wStore fs1).1 fs2).2)) :=
  c9_per_file_error_isolation wStep wStore [0, 1]

/-- C10: a zero-area candidate makes get_avg_prices_rows raise an untyped
ZeroDivisionError before any row set reaches the writer; save_file therefore
fails with that error, the store is left unchanged for the snapshot, and the
driver's catch-all logs it and continues with the remaining files. -/
theorem c10_zero_area_skip {fail : Nat → Bool} {s : Store}
    {offers : List Offer} (h : ∃ o ∈ offers, o.area = 0) :
    save_file fail s offers = Except.error PyError.zeroDivision ∧
    ∀ rest : List (List Offer),
      mainLoop (save_file fail) s (offers :: rest) =
        ((mainLoop (save_file fail) s rest).1,
          some PyError.zeroDivision :: (mainLoop (save_file fail) s rest).2) := by
  have herr : save_file fail s offers = Except.error PyError.zeroDivision := by
    unfold save_file
    rw [get_avg_prices_rows_error h]
  refine ⟨herr, fun rest => ?_⟩
  simp [mainLoop, herr]

/-- Witness for C10: a batch holding one zero-area offer. -/
theorem c10_zero_area_skip_witness :
    (∃ o ∈ [wOfferZero], o.area = 0) ∧
    (save_file noFail wStore [wOfferZero] =
      Except.error PyError.zeroDivision ∧
    ∀ rest : List (List Offer),
      mainLoop (save_file noFail) wStore ([wOfferZero] :: rest) =
        ((mainLoop (save_file noFail) wStore rest).1,
          some PyError.zeroDivision ::
            (mainLoop (save_file noFail) wStore rest).2)) :=
  ⟨⟨wOfferZero, List.mem_singleton.mpr rfl, rfl⟩,
    c10_zero_area_skip ⟨wOfferZero, List.mem_singleton.mpr rfl, rfl⟩⟩

end N1Store

namespace N1Store

theorem chunked100_small {α : Type} {xs : List α} (h1 : xs ≠ [])
    (h2 : xs.length ≤ 100) : chunked100 xs = [xs] := by
  rw [chunked100]
  rw [if_neg (by simpa [List.isEmpty_iff] using h1)]
  rw [List.take_of_length_le h2, List.drop_eq_nil_of_le h2]
  rw [chunked100]
  rfl

theorem runOps_error_val (fail : Nat → Bool) :
    ∀ (ops : List Op) (i : Nat) (s : Store),
      (runOps fail i ops s).2 = none ∨
      (runOps fail i ops s).2 = some (PyError.storeExc "db insert failed") := by
  intro ops
  induction ops with
  | nil => intro i s; exact Or.inl rfl
  | cons op ops ih =>
    intro i s
    simp only [runOps]
    by_cases h : fail i
    · simp [h]
    · simp only [h, Bool.false_eq_true, if_false]
      exact ih (i + 1) (applyOp s op)

theorem insertOps_length (o : List OfferRow) (p : List PriceRow)
    (a : List AvgPriceRow) :
    (insertOps o p a).length = (chunked100 o).length +
      (chunked100 p).length + (chunked100 a).length := by
  simp [insertOps]
  omega

/-- C6: the write phase of save_file is one atomic transaction over the
three row sets. It either commits all three appended row sets, or reports an
error with the store exactly as before the transaction; in particular, when
every listing and price insert succeeds and an average-price insert fails,
the store retains none of the snapshot's rows. -/
theorem c6_transactional_atomicity (fail : Nat → Bool) (s : Store)
    (offerRows : List OfferRow) (priceRows : List PriceRow)
    (avgRows : List AvgPriceRow) :
    (runAtomic fail (insertOps offerRows priceRows avgRows) s =
        (⟨s.offers ++ offerRows, s.prices ++ priceRows,
          s.avg_prices ++ avgRows⟩, none) ∨
      ∃ e, runAtomic fail (insertOps offerRows priceRows avgRows) s =
        (s, some e)) ∧
    ((∀ i, i < (chunked100 offerRows).length +
        (chunked100 priceRows).length → fail i = false) →
      ∀ j, j < (chunked100 avgRows).length →
        fail ((chunked100 offerRows).length +
          (chunked100 priceRows).length + j) = true →
        runAtomic fail (insertOps offerRows priceRows avgRows) s =
          (s, some (PyError.storeExc "db insert failed"))) := by
  constructor
  · rcases runAtomic_cases fail (insertOps offerRows priceRows avgRows) s
      with hc | ⟨e, hc⟩
    · rw [hc, foldl_insertOps]
      exact Or.inl rfl
    · exact Or.inr ⟨e, hc⟩
  · intro _ j hj hfj
    have hk : (chunked100 offerRows).length + (chunked100 priceRows).length +
        j < (insertOps offerRows priceRows avgRows).length := by
      rw [insertOps_length]
      omega
    have hf0 : fail (0 + ((chunked100 offerRows).length +
        (chunked100 priceRows).length + j)) = true := by
      simpa using hfj
    have hsome := @runOps_fail fail (insertOps offerRows priceRows avgRows)
      0 s _ hk hf0
    unfold runAtomic
    rcases hr : runOps fail 0 (insertOps offerRows priceRows avgRows) s
      with ⟨s1, e⟩
    cases e with
    | none => rw [hr] at hsome; simp at hsome
    | some e =>
      have hval := runOps_error_val fail
        (insertOps offerRows priceRows avgRows) 0 s
      rw [hr] at hval
      rcases hval with h1 | h1
      · simp at h1
      · simp only [Option.some.injEq] at h1
        rw [h1]

/-- Witness for C6: with one chunk per table and an oracle failing exactly
the average-price insert, the transaction leaves the store untouched. -/
theorem c6_transactional_atomicity_witness :
    runAtomic (fun i => i == 2) (insertOps [toOfferRow wOffer]
      [⟨1, wDate, 10⟩] [⟨"a", wDate, 10, none⟩]) wStore =
      (wStore, some (PyError.storeExc "db insert failed")) :=
  (c6_transactional_atomicity (fun i => i == 2) wStore _ _ _).2
    (by
      intro i hi
      rw [chunked100_small (by simp) (by simp),
        chunked100_small (by simp) (by simp)] at hi
      simp only [List.length_singleton] at hi
      simp only [beq_eq_false_iff_ne, ne_eq]
      omega)
    0
    (by
      rw [chunked100_small (by simp) (by simp)]
      simp)
    (by
      rw [chunked100_small (by simp) (by simp),
        chunked100_small (by simp) (by simp)]
      simp)

end N1Store

namespace N1Store

theorem roundHalfEven_intCast (n : Int) : roundHalfEven ((n : Rat)) = n := by
  simp only [roundHalfEven, ratFloor_eq, Int.floor_intCast, sub_self]
  norm_num

theorem round2_intCast (n : Int) : round2 ((n : Rat)) = (n : Rat) := by
  unfold round2
  rw [show ((n : Rat) * 100) = ((n * 100 : Int) : Rat) by push_cast; ring,
    roundHalfEven_intCast]
  push_cast
  field_simp

theorem truncQ_intCast (n : Int) : truncQ ((n : Rat)) = n := by
  unfold truncQ
  by_cases h : ((n : Rat)) < 0
  · rw [if_pos h, ratFloor_eq,
      show (-(n : Rat)) = ((-n : Int) : Rat) by push_cast; ring,
      Int.floor_intCast]
    ring
  · rw [if_neg h, ratFloor_eq, Int.floor_intCast]

theorem round2_half_31 : round2 ((31 : Rat) / 2) = 31 / 2 := by
  unfold round2
  rw [show ((31 : Rat) / 2 * 100) = ((1550 : Int) : Rat) by norm_num,
    roundHalfEven_intCast]
  norm_num

theorem truncQ_half_31 : truncQ ((31 : Rat) / 2) = 15 := by
  rw [truncQ_nonneg_eq (by norm_num),
    show ((31 : Rat) / 2) = ((31 : Int) : Rat) / ((2 : Nat) : Rat) by norm_num,
    Rat.floor_intCast_div_natCast]
  decide

theorem groupAdjacent_singleton (o : Offer) :
    groupAdjacent [o] = [(o, [])] := by
  rw [groupAdjacent]
  simp only [List.takeWhile_nil, List.dropWhile_nil]
  rw [groupAdjacent]

theorem meanPriceArea_wOfferHalf : meanPriceArea [wOfferHalf] = 31 / 2 := by
  unfold meanPriceArea priceArea wOfferHalf
  norm_num

/-- C5: the claim fails on the code: get_avg_prices_rows computes the
two-decimal rounded mean 31/2 for a batch with one listing priced 31 over
area 2, but the avg_prices column is an IntegerField, so the persisted row
stores the truncated integer 15 and the two-decimal precision is lost. -/
theorem c5_persisted_average_truncated :
    get_avg_prices_rows wStore [wOfferHalf] = Except.ok
      ((groupAdjacent ([wOfferHalf].mergeSort addrLe)).map
        (avgRowOf wStore.avg_prices)) ∧
    ((groupAdjacent ([wOfferHalf].mergeSort addrLe)).map
      (avgRowOf wStore.avg_prices)).map (fun r => r.avg_price) =
        [(31 : Rat) / 2] ∧
    (((groupAdjacent ([wOfferHalf].mergeSort addrLe)).map
      (avgRowOf wStore.avg_prices)).map toStoredAvgRow).map
        (fun r => r.avg_price) = [(15 : Int)] ∧
    ¬(((15 : Int) : Rat) = (31 : Rat) / 2) := by
  have hms : [wOfferHalf].mergeSort addrLe = [wOfferHalf] :=
    List.mergeSort_singleton wOfferHalf
  have hlast : last_avg_price wStore.avg_prices wOfferHalf.address
      wOfferHalf.date = none := by
    unfold last_avg_price wStore
    simp
  have hrow : avgRowOf wStore.avg_prices (wOfferHalf, []) =
      ⟨"a", wDT, 31 / 2, none⟩ := by
    unfold avgRowOf
    rw [hlast]
    show (⟨wOfferHalf.address, wOfferHalf.date,
      round2 (meanPriceArea [wOfferHalf]), none⟩ : AvgRow) = _
    rw [meanPriceArea_wOfferHalf, round2_half_31]
    rfl
  refine ⟨get_avg_prices_rows_ok (by decide), ?_, ?_, by norm_num⟩
  · rw [hms, groupAdjacent_singleton, List.map_cons, List.map_nil,
      List.map_cons, List.map_nil, hrow]
  · rw [hms, groupAdjacent_singleton, List.map_cons, List.map_nil,
      List.map_cons, List.map_nil, List.map_cons, List.map_nil, hrow]
    show [truncQ ((31 : Rat) / 2)] = [(15 : Int)]
    rw [truncQ_half_31]

end N1Store

namespace N1Store

/-- C4: for a batch sharing one snapshot date and free of zero areas,
get_avg_prices_rows emits exactly one row per distinct address of the batch;
every row carries the batch date, the two-decimal rounded mean of price/area
over that address's candidates, and a change that is the row's average minus
the stored avg_price of the most recent strictly-earlier average row for the
same address, or null when no strictly-earlier row exists. -/
theorem c4_average_row_spec {s : Store} {offers : List Offer} {D : DateTime}
    (hdate : ∀ o ∈ offers, o.date = D)
    (harea : ∀ o ∈ offers, ¬(o.area = 0)) :
    ∃ rows, get_avg_prices_rows s offers = Except.ok rows ∧
      (rows.map (fun r => r.address)).Nodup ∧
      (∀ a : String, a ∈ rows.map (fun r => r.address) ↔
        a ∈ offers.map (fun o => o.address)) ∧
      (∀ r ∈ rows, r.date = D ∧
        r.avg_price = round2 (meanPriceArea
          (offers.filter (fun o => o.address == r.address))) ∧
        ((r.avg_price_change = none ∧
          ∀ x, ¬ IsLastAvgBefore s.avg_prices r.address D.date x) ∨
        (∃ x, IsLastAvgBefore s.avg_prices r.address D.date x ∧
          r.avg_price_change = some (r.avg_price - (x.avg_price : Rat))))) := by
  have hsort : SortedByAddr (offers.mergeSort addrLe) :=
    sortedByAddr_mergeSort offers
  have hperm : (offers.mergeSort addrLe).Perm offers :=
    List.mergeSort_perm offers addrLe
  refine ⟨_, get_avg_prices_rows_ok harea, ?_, ?_, ?_⟩
  · show (((groupAdjacent (offers.mergeSort addrLe)).map
      (avgRowOf s.avg_prices)).map (fun r => r.address)).Nodup
    rw [List.map_map]
    show ((groupAdjacent (offers.mergeSort addrLe)).map
      (fun g => g.1.address)).Nodup
    exact List.pairwise_map.mpr (groupAdjacent_addr_nodup hsort)
  · intro a
    rw [List.map_map]
    show a ∈ (groupAdjacent (offers.mergeSort addrLe)).map
      (fun g => g.1.address) ↔ _
    constructor
    · intro hmem
      rcases List.mem_map.mp hmem with ⟨g, hg, rfl⟩
      have hg1 : g.1 ∈ offers.mergeSort addrLe :=
        mem_of_mem_groupAdjacent hg (List.mem_cons_self _ _)
      exact List.mem_map_of_mem _ (hperm.mem_iff.mp hg1)
    · intro hmem
      rcases List.mem_map.mp hmem with ⟨x, hx, rfl⟩
      have hxL : x ∈ offers.mergeSort addrLe := hperm.mem_iff.mpr hx
      rcases exists_group_of_mem hxL with ⟨g, hg, hxg⟩
      exact List.mem_map.mpr ⟨g, hg,
        (groupAdjacent_all_addr hg hxg).symm⟩
  · intro r hr
    rcases List.mem_map.mp hr with ⟨g, hg, rfl⟩
    have hg1L : g.1 ∈ offers.mergeSort addrLe :=
      mem_of_mem_groupAdjacent hg (List.mem_cons_self _ _)
    have hg1off : g.1 ∈ offers := hperm.mem_iff.mp hg1L
    have hdateg : g.1.date = D := hdate g.1 hg1off
    refine ⟨hdateg, ?_, ?_⟩
    · show round2 (meanPriceArea (g.1 :: g.2)) = _
      have hfilter := groupAdjacent_filter hsort hg
      have hpermf : ((offers.mergeSort addrLe).filter
          (fun x => x.address == g.1.address)).Perm
            (offers.filter (fun x => x.address == g.1.address)) :=
        hperm.filter _
      rw [hfilter, meanPriceArea_perm hpermf]
      rfl
    · rcases hlast : last_avg_price s.avg_prices g.1.address g.1.date
        with _ | x
      · left
        constructor
        · show (last_avg_price s.avg_prices g.1.address g.1.date).map _ = none
          rw [hlast]
          rfl
        · intro x hx
          rcases hx with ⟨hxmem, hxaddr, hxdate, _⟩
          rw [← hdateg] at hxdate
          exact last_avg_price_none hlast x hxmem hxaddr hxdate
      · right
        have hspec := last_avg_price_some hlast
        rw [hdateg] at hspec
        refine ⟨x, hspec, ?_⟩
        show (last_avg_price s.avg_prices g.1.address g.1.date).map _ = some _
        rw [hlast]
        rfl

end N1Store

namespace N1Store

/-- Witness for C4 at the specification example: listings priced 100 and 200
over areas 10 and 10 share one address and one date. -/
theorem c4_average_row_spec_witness :
    (∀ o ∈ [wOfferA1, wOfferA2], o.date = wDT) ∧
    (∀ o ∈ [wOfferA1, wOfferA2], ¬(o.area = 0)) ∧
    (∃ rows, get_avg_prices_rows wStore [wOfferA1, wOfferA2] =
        Except.ok rows ∧
      (rows.map (fun r => r.address)).Nodup ∧
      (∀ a : String, a ∈ rows.map (fun r => r.address) ↔
        a ∈ [wOfferA1, wOfferA2].map (fun o => o.address)) ∧
      (∀ r ∈ rows, r.date = wDT ∧
        r.avg_price = round2 (meanPriceArea
          ([wOfferA1, wOfferA2].filter (fun o => o.address == r.address))) ∧
        ((r.avg_price_change = none ∧
          ∀ x, ¬ IsLastAvgBefore wStore.avg_prices r.address wDate x) ∨
        (∃ x, IsLastAvgBefore wStore.avg_prices r.address wDate x ∧
          r.avg_price_change = some (r.avg_price - (x.avg_price : Rat)))))) :=
  ⟨by decide, by decide, c4_average_row_spec (by decide) (by decide)⟩

end N1Store

namespace N1Store

/-! ### Second-run lemmas for the idempotence analysis -/

theorem get_offers_rows_covers {s : Store} {offers : List Offer} :
    ∀ o ∈ offers, o.offer_id ∈
      (s.offers ++ get_offers_rows s offers).map (fun r => r.offer_id) := by
  intro o ho
  rw [List.map_append, List.mem_append]
  by_cases h : o.offer_id ∈ s.offers.map (fun r => r.offer_id)
  · exact Or.inl h
  · right
    have hmem : toOfferRow o ∈ get_offers_rows s offers :=
      mem_get_offers_rows.mpr ⟨o, ho, fun hm => h hm, rfl⟩
    exact List.mem_map.mpr ⟨toOfferRow o, hmem, rfl⟩

theorem avg_rows_dates {s : Store} {offers : List Offer} {D : DateTime}
    (hdate : ∀ o ∈ offers, o.date = D) :
    ∀ r ∈ ((groupAdjacent (offers.mergeSort addrLe)).map
      (avgRowOf s.avg_prices)).map toStoredAvgRow, r.date = D.date := by
  intro r hr
  rcases List.mem_map.mp hr with ⟨r2, hr2, rfl⟩
  rcases List.mem_map.mp hr2 with ⟨g, hg, rfl⟩
  show g.1.date.date = D.date
  rw [hdate g.1 ((List.mergeSort_perm offers addrLe).mem_iff.mp
    (mem_of_mem_groupAdjacent hg (List.mem_cons_self _ _)))]

theorem avg_rows_second_run {s : Store} {offers : List Offer} {D : DateTime}
    (hdate : ∀ o ∈ offers, o.date = D)
    {extra : List AvgPriceRow} (hextra : ∀ r ∈ extra, r.date = D.date) :
    (groupAdjacent (offers.mergeSort addrLe)).map
      (avgRowOf (s.avg_prices ++ extra)) =
    (groupAdjacent (offers.mergeSort addrLe)).map
      (avgRowOf s.avg_prices) := by
  apply List.map_congr_left
  intro g hg
  have hd : g.1.date = D := hdate g.1
    ((List.mergeSort_perm offers addrLe).mem_iff.mp
      (mem_of_mem_groupAdjacent hg (List.mem_cons_self _ _)))
  have hnone : ∀ r ∈ extra, Date.ltb r.date g.1.date.date = false := by
    intro r hr
    rw [hextra r hr, hd]
    exact Date.ltb_irrefl D.date
  unfold avgRowOf
  rw [last_avg_price_append hnone]

end N1Store

namespace N1Store

/-- C1 (amended): reprocessing the same one-date snapshot against the store
state left by a successful first run inserts no Listing row, but the
date-granularity price dedup compares a datetime against stored dates and so
never fires: the second run re-inserts one PriceObservation row per
candidate, and get_avg_prices_rows performs no dedup against the stored rows,
so it also re-appends the very same AveragePrice row list a second time. The
store content therefore differs from a single run whenever the batch is
nonempty. -/
theorem c1_amended_idempotence {fail1 fail2 : Nat → Bool} {s s1 s2 : Store}
    {offers : List Offer} {D : DateTime}
    (hdate : ∀ o ∈ offers, o.date = D)
    (h1 : save_file fail1 s offers = Except.ok s1)
    (h2 : save_file fail2 s1 offers = Except.ok s2) :
    s2.offers = s1.offers ∧
    s2.prices = s1.prices ++
      offers.map (fun o => ⟨o.offer_id, o.date.date, o.price⟩) ∧
    ∃ newAvg : List AvgPriceRow,
      s1.avg_prices = s.avg_prices ++ newAvg ∧
      s2.avg_prices = s1.avg_prices ++ newAvg := by
  rcases save_file_ok h1 with ⟨avg1, hav1, hs1⟩
  rcases save_file_ok h2 with ⟨avg2, hav2, hs2⟩
  have harea : ∀ o ∈ offers, ¬(o.area = 0) := by
    intro o ho h0
    rw [get_avg_prices_rows_error ⟨o, ho, h0⟩] at hav1
    cases hav1
  have hexp1 := get_avg_prices_rows_ok (s := s) harea
  have havg1 : avg1 = (groupAdjacent (offers.mergeSort addrLe)).map
      (avgRowOf s.avg_prices) := by
    rw [hav1] at hexp1
    simp only [Except.ok.injEq] at hexp1
    exact hexp1
  subst havg1
  subst hs1
  have hor2 : get_offers_rows
      (⟨s.offers ++ get_offers_rows s offers,
        s.prices ++ get_price_rows s offers,
        s.avg_prices ++ ((groupAdjacent (offers.mergeSort addrLe)).map
          (avgRowOf s.avg_prices)).map toStoredAvgRow⟩ : Store) offers = [] :=
    get_offers_rows_eq_nil (fun o ho => get_offers_rows_covers o ho)
  have hdates1 := avg_rows_dates (s := s) hdate
  have hexp2 := get_avg_prices_rows_ok
    (s := ⟨s.offers ++ get_offers_rows s offers,
      s.prices ++ get_price_rows s offers,
      s.avg_prices ++ ((groupAdjacent (offers.mergeSort addrLe)).map
        (avgRowOf s.avg_prices)).map toStoredAvgRow⟩) harea
  have havg2 : avg2 = (groupAdjacent (offers.mergeSort addrLe)).map
      (avgRowOf s.avg_prices) := by
    rw [hav2] at hexp2
    simp only [Except.ok.injEq] at hexp2
    rw [hexp2]
    exact avg_rows_second_run hdate hdates1
  subst havg2
  subst hs2
  refine ⟨?_, ?_, ⟨((groupAdjacent (offers.mergeSort addrLe)).map
    (avgRowOf s.avg_prices)).map toStoredAvgRow, rfl, ?_⟩⟩
  · show (s.offers ++ get_offers_rows s offers) ++ _ = _
    rw [hor2, List.append_nil]
  · show (s.prices ++ get_price_rows s offers) ++
      get_price_rows (⟨s.offers ++ get_offers_rows s offers,
        s.prices ++ get_price_rows s offers,
        s.avg_prices ++ ((groupAdjacent (offers.mergeSort addrLe)).map
          (avgRowOf s.avg_prices)).map toStoredAvgRow⟩ : Store) offers =
      (s.prices ++ get_price_rows s offers) ++
        offers.map (fun o => ⟨o.offer_id, o.date.date, o.price⟩)
    rw [get_price_rows_eq, get_price_rows_eq]
  · rfl

end N1Store

namespace N1Store

/-! ### Concrete evaluation of the one-listing snapshot -/

theorem meanPriceArea_wOffer : meanPriceArea [wOffer] = 10 := by
  unfold meanPriceArea priceArea wOffer
  norm_num

theorem round2_ten : round2 (10 : Rat) = 10 := by
  have h := round2_intCast 10
  simpa using h

theorem truncQ_ten : truncQ (10 : Rat) = 10 := by
  have h := truncQ_intCast 10
  simpa using h

theorem wAvgRow_first :
    toStoredAvgRow (avgRowOf wStore.avg_prices (wOffer, [])) = wRow1 := by
  have hlast : last_avg_price wStore.avg_prices wOffer.address
      wOffer.date = none := by
    unfold last_avg_price wStore
    simp
  show toStoredAvgRow ⟨wOffer.address, wOffer.date,
    round2 (meanPriceArea [wOffer]),
    (last_avg_price wStore.avg_prices wOffer.address wOffer.date).map
      (fun r => round2 (meanPriceArea [wOffer]) - (r.avg_price : Rat))⟩ = wRow1
  rw [hlast]
  show (⟨wOffer.address, wOffer.date.date,
    truncQ (round2 (meanPriceArea [wOffer])), Option.map truncQ none⟩ :
      AvgPriceRow) = wRow1
  rw [meanPriceArea_wOffer, round2_ten, truncQ_ten]
  rfl

theorem wAvgRow_second :
    toStoredAvgRow (avgRowOf wS1.avg_prices (wOffer, [])) = wRow1 := by
  have hlast : last_avg_price wS1.avg_prices wOffer.address
      wOffer.date = none := by
    unfold last_avg_price wS1 wRow1 wOffer wDT wDate
    simp [Date.ltb]
  show toStoredAvgRow ⟨wOffer.address, wOffer.date,
    round2 (meanPriceArea [wOffer]),
    (last_avg_price wS1.avg_prices wOffer.address wOffer.date).map
      (fun r => round2 (meanPriceArea [wOffer]) - (r.avg_price : Rat))⟩ = wRow1
  rw [hlast]
  show (⟨wOffer.address, wOffer.date.date,
    truncQ (round2 (meanPriceArea [wOffer])), Option.map truncQ none⟩ :
      AvgPriceRow) = wRow1
  rw [meanPriceArea_wOffer, round2_ten, truncQ_ten]
  rfl

theorem wS1_eq : save_file noFail wStore [wOffer] = Except.ok wS1 := by
  have hav := @get_avg_prices_rows_ok wStore [wOffer] (by decide)
  have h := @save_file_eq_ok wStore [wOffer] _ hav noFail (fun k => rfl)
  rw [h]
  have hoff : get_offers_rows wStore [wOffer] = [toOfferRow wOffer] := rfl
  have hpr : get_price_rows wStore [wOffer] =
    [⟨wOffer.offer_id, wOffer.date.date, wOffer.price⟩] := rfl
  rw [hoff, hpr, List.mergeSort_singleton, groupAdjacent_singleton,
    List.map_cons, List.map_nil, List.map_cons, List.map_nil, wAvgRow_first]
  rfl

theorem wS2_eq : save_file noFail wS1 [wOffer] = Except.ok wS2 := by
  have hav := @get_avg_prices_rows_ok wS1 [wOffer] (by decide)
  have h := @save_file_eq_ok wS1 [wOffer] _ hav noFail (fun k => rfl)
  rw [h]
  have hoff : get_offers_rows wS1 [wOffer] = [] := rfl
  have hpr : get_price_rows wS1 [wOffer] =
    [⟨wOffer.offer_id, wOffer.date.date, wOffer.price⟩] := rfl
  rw [hoff, hpr, List.mergeSort_singleton, groupAdjacent_singleton,
    List.map_cons, List.map_nil, List.map_cons, List.map_nil, wAvgRow_second]
  rfl

/-- C1 is false on the code as stated: saving the same one-listing snapshot
twice leaves a duplicated PriceObservation row and a duplicated AveragePrice
row, so the store content after two runs differs from the content after one
run. -/
theorem c1_idempotence_counterexample :
    save_file noFail wStore [wOffer] = Except.ok wS1 ∧
    save_file noFail wS1 [wOffer] = Except.ok wS2 ∧
    ¬(wS2 = wS1) :=
  ⟨wS1_eq, wS2_eq, (fun h => by
    have hlen := congrArg (fun st : Store => st.avg_prices.length) h
    simp [wS1, wS2, wRow1] at hlen)⟩

/-- Witness for the amended C1 at the one-listing snapshot: the second run
adds no offers row, re-inserts the one prices row and re-appends the same
avg row list. -/
theorem c1_amended_idempotence_witness :
    (∀ o ∈ [wOffer], o.date = wDT) ∧
    (wS2.offers = wS1.offers ∧
      wS2.prices = wS1.prices ++
        [wOffer].map (fun o => ⟨o.offer_id, o.date.date, o.price⟩) ∧
      ∃ newAvg : List AvgPriceRow,
        wS1.avg_prices = wStore.avg_prices ++ newAvg ∧
        wS2.avg_prices = wS1.avg_prices ++ newAvg) :=
  ⟨by decide, @c1_amended_idempotence noFail noFail wStore wS1 wS2 [wOffer]
    wDT (by decide) wS1_eq wS2_eq⟩

end N1Store
